import Mathlib

/-!
Shallow embedding of `pdf_merger.py` (a command-line PDF merger) and proofs
about it.  The program is a thin orchestration layer over an external PDF
library (PyPDF2); following the program's own interface to that library, a
file on disk is modelled abstractly by what the library calls report about
it: missing, unparsable (the reader constructor raises), or a parsed PDF
document with an encryption flag, a decryption oracle, and a page list.
Pages are opaque and modelled as natural-number identifiers.

Strings are compared and transformed at the level of their character lists
(Python compares strings by code points, which coincides with comparing the
`Char` values of `String.data`).
-/

namespace PdfMerger

/-- Lowercase every character of a string, modelling Python `str.lower` on
the ASCII range (the program only ever compares ASCII suffixes and names). -/
def pyLower (s : String) : String := ⟨s.data.map Char.toLower⟩

/-- Model of `path.lower().endswith(".pdf")`: the lowercased path ends with
the four characters `.pdf`. -/
def endsPdf (p : String) : Bool := List.isSuffixOf ".pdf".data (pyLower p).data

/-- Model of `os.path.basename` on POSIX paths: the longest suffix that
contains no `/` separator. -/
def os_path_basename (p : String) : String :=
  ⟨(p.data.reverse.takeWhile (fun c => c != '/')).reverse⟩

/-- Model of `os.path.join(root, f)` for the shapes produced by `os.walk`:
concatenate with a single separator. -/
def os_path_join (root f : String) : String :=
  if root = "" then f
  else if root.endsWith "/" then root ++ f
  else root ++ "/" ++ f

/-- Sort key used by `sort_files` for `key == "name"`:
`os.path.basename(p).lower()`. -/
def nameKey (p : String) : String := pyLower (os_path_basename p)

/-- Truthiness of the optional `password` argument, as Python's
`if password:` sees it: absent and empty strings are falsy. -/
def pyTruthy : Option String → Bool
  | none => false
  | some s => !(s == "")

/-- What the external PDF library reports for a given path: the file may be
absent, the reader constructor may raise (carrying an error message), or the
path parses as a PDF document with an encryption flag, a decryption oracle
(`none` means `reader.decrypt` succeeds for that password, `some e` means it
raises the exception message `e`), and the ordered list of pages. -/
inductive FileKind : Type where
  | missing : FileKind
  | unparsable : String → FileKind
  | pdf : Bool → (String → Option String) → List Nat → FileKind

/-- The ambient file system and library behaviour for one program run:
per-path parse results, the `os.walk` traversal (as `(root, filename)` pairs
in traversal order), and the `os.path.getmtime` / `os.path.getsize` views
used by `sort_files`. -/
structure FS : Type where
  file : String → FileKind
  walkFiles : String → List (String × String)
  mtime : String → Int
  size : String → Nat

/-- Console messages printed by `merge_pdfs`, in order. -/
inductive LogMsg : Type where
  | warnNotFound : String → LogMsg
  | warnDecrypt : String → String → LogMsg
  | warnNoPassword : String → LogMsg
  | okAdded : Nat → String → LogMsg
  | errFailedRead : String → String → LogMsg
  | doneWrote : String → Nat → LogMsg
deriving DecidableEq

/-- Python exceptions that can escape `merge_pdfs`: `RuntimeError`s raised
by the script itself, and exceptions propagated from the PDF library. -/
inductive Exc : Type where
  | runtimeError : String → Exc
  | libError : String → Exc
deriving DecidableEq

/-- Message of the `RuntimeError` raised for an encrypted PDF without a
password in strict mode. -/
def pwdMsg (path : String) : String := s!"Encrypted PDF requires password: {path}"

/-- State of one `merge_pdfs` invocation while the loop over inputs runs:
the accumulated writer pages, the `pages_added` counter, and the log. -/
structure LoopState : Type where
  writer : List Nat
  pages_added : Nat
  log : List LogMsg
deriving DecidableEq

/-- Append log messages to the state. -/
def addLog (s : LoopState) (ms : List LogMsg) : LoopState :=
  ⟨s.writer, s.pages_added, s.log ++ ms⟩

/-- Model of the page loop for one successfully opened document: every page
is appended to the writer, `pages_added` grows by the page count, and the
`[OK]` line is printed. -/
def addPages (s : LoopState) (path : String) (pgs : List Nat) : LoopState :=
  ⟨s.writer ++ pgs, s.pages_added + pgs.length, s.log ++ [LogMsg.okAdded pgs.length path]⟩

/-- One iteration of the `for path in inputs` loop of `merge_pdfs`,
including the nested `try`/`except` blocks.  Returns the new state and
`some e` when an exception `e` escapes the iteration (aborting the merge),
`none` when the loop continues.  Mirrors the source line by line: a
non-`.pdf` suffix is skipped silently; a missing path warns and continues
regardless of `strict`; an unparsable file logs `[ERROR]` and aborts only
under `strict`; an encrypted document either attempts decryption (when the
password is truthy) or warns about the missing password, and in strict mode
the raised exception is caught by the outer handler (logging `[ERROR]`) and
re-raised. -/
def processFile (fs : FS) (password : Option String) (strict : Bool)
    (path : String) (s : LoopState) : LoopState × Option Exc :=
  if endsPdf path = false then (s, none)
  else
    match fs.file path with
    | FileKind.missing => (addLog s [LogMsg.warnNotFound path], none)
    | FileKind.unparsable e =>
        (addLog s [LogMsg.errFailedRead path e],
         if strict then some (Exc.libError e) else none)
    | FileKind.pdf encrypted dec pgs =>
        if encrypted then
          if pyTruthy password then
            match dec (password.getD "") with
            | some e =>
                if strict then
                  (addLog s [LogMsg.warnDecrypt path e, LogMsg.errFailedRead path e],
                   some (Exc.libError e))
                else
                  (addLog s [LogMsg.warnDecrypt path e], none)
            | none => (addPages s path pgs, none)
          else
            if strict then
              (addLog s [LogMsg.warnNoPassword path, LogMsg.errFailedRead path (pwdMsg path)],
               some (Exc.runtimeError (pwdMsg path)))
            else
              (addLog s [LogMsg.warnNoPassword path], none)
        else (addPages s path pgs, none)

/-- The `for path in inputs` loop of `merge_pdfs`: iterate `processFile`
until the list is exhausted or an exception escapes an iteration. -/
def mergeLoop (fs : FS) (password : Option String) (strict : Bool) :
    List String → LoopState → LoopState × Option Exc
  | [], s => (s, none)
  | p :: rest, s =>
    match processFile fs password strict p s with
    | (t, none) => mergeLoop fs password strict rest t
    | (t, some e) => (t, some e)

deriving instance DecidableEq for Except

/-- Observable result of one `merge_pdfs` call: the returned page count or
the escaping exception, the page list written to the output path (`none`
when no file was written), and the log. -/
structure MergeResult : Type where
  outcome : Except Exc Nat
  written : Option (List Nat)
  log : List LogMsg
deriving DecidableEq

/-- Initial loop state: a fresh `PdfWriter` and `pages_added = 0`. -/
def initState : LoopState := ⟨[], 0, []⟩

/-- Model of `merge_pdfs(inputs, output, password, strict)`: run the loop;
if an exception escapes, it propagates and nothing is written; otherwise,
if `pages_added == 0`, raise the `No pages added` `RuntimeError` without
writing; otherwise write the accumulated pages to the output path once,
print the `[DONE]` line, and return `pages_added`. -/
def merge_pdfs (fs : FS) (inputs : List String) (output : String)
    (password : Option String) (strict : Bool) : MergeResult :=
  match mergeLoop fs password strict inputs initState with
  | (s, some e) => ⟨Except.error e, none, s.log⟩
  | (s, none) =>
      if s.pages_added = 0 then
        ⟨Except.error (Exc.runtimeError "No pages added. Check inputs."), none, s.log⟩
      else
        ⟨Except.ok s.pages_added, some s.writer,
         s.log ++ [LogMsg.doneWrote output s.pages_added]⟩

/-- Model of `find_pdfs_in_dir`: keep the walked filenames whose lowercased
name ends in `.pdf`, joined to their root, in traversal order. -/
def find_pdfs_in_dir (fs : FS) (directory : String) : List String :=
  ((fs.walkFiles directory).filter (fun rf => endsPdf rf.2)).map
    (fun rf => os_path_join rf.1 rf.2)

/-- Lexicographic strict comparison of character lists by code point, the
order Python uses on `str`. -/
def strLt : List Char → List Char → Bool
  | [], [] => false
  | [], _ :: _ => true
  | _ :: _, [] => false
  | a :: as, b :: bs => if a < b then true else if b < a then false else strLt as bs

/-- Non-strict string comparison: `a <= b` iff not `b < a`. -/
def strLe (a b : String) : Bool := !(strLt b.data a.data)

/-- Stable insertion of `x` into `l`: `x` goes in front of the first
element it may precede, so an element equal under the order keeps later
input positions behind `x`. -/
def insertSt {α : Type} (le : α → α → Bool) (x : α) : List α → List α
  | [] => [x]
  | y :: ys => if le x y then x :: y :: ys else y :: insertSt le x ys

/-- Stable sort (insertion sort), observationally equivalent to Python's
stable `sorted` for a total preorder `le`. -/
def pySorted {α : Type} (le : α → α → Bool) : List α → List α
  | [] => []
  | x :: xs => insertSt le x (pySorted le xs)

/-- The element order `sorted(files, key=k, reverse=rv)` sorts by: compare
keys, in reverse when `rv` is set.  Python's stable sort with `reverse=True`
still keeps equal-key elements in original order, which this comparison
produces under `insertSt`. -/
def pyLeB {α β : Type} (bLe : β → β → Bool) (k : α → β) (rv : Bool) (a b : α) : Bool :=
  if rv then bLe (k b) (k a) else bLe (k a) (k b)

/-- Boolean comparison on `Int` keys (mtime). -/
def intLe (a b : Int) : Bool := decide (a ≤ b)

/-- Boolean comparison on `Nat` keys (size). -/
def natLe (a b : Nat) : Bool := decide (a ≤ b)

/-- Model of `sort_files(files, key, reverse)`: a stable sort by the chosen
key (`name` by lowercased basename, `mtime` and `size` by the file-system
views), and the list unchanged for any other key string. -/
def sort_files (fs : FS) (files : List String) (key : String) (rev : Bool) : List String :=
  if key = "name" then pySorted (pyLeB strLe nameKey rev) files
  else if key = "mtime" then pySorted (pyLeB intLe fs.mtime rev) files
  else if key = "size" then pySorted (pyLeB natLe fs.size rev) files
  else files

/-- Parsed command-line arguments of `main` after `argparse`: exactly one of
`inputs`/`directory` is set (mutually exclusive required group), `sortKey`
defaults to `"name"`. -/
structure Args : Type where
  inputs : Option (List String)
  directory : Option String
  output : String
  sortKey : String
  rev : Bool
  password : Option String
  strict : Bool

/-- Truthiness of `args.inputs` as Python's `if args.inputs:` sees it:
absent and the empty list are falsy. -/
def pyTruthyL : Option (List String) → Bool
  | none => false
  | some l => !(l.isEmpty)

/-- Candidate collection of `main`: in explicit-list mode filter the given
list by the `.pdf` suffix; in directory mode walk the directory and sort. -/
def collectFiles (fs : FS) (a : Args) : List String :=
  if pyTruthyL a.inputs then (a.inputs.getD []).filter (fun f => endsPdf f)
  else sort_files fs (find_pdfs_in_dir fs (a.directory.getD "")) a.sortKey a.rev

/-- Observable outcome of `main`: either the `SystemExit` raised when no
candidate files are found (the merge is never attempted, so it carries no
merge result), or a run of `merge_pdfs` on the collected files. -/
inductive MainOutcome : Type where
  | systemExit : String → MainOutcome
  | ran : List String → MergeResult → MainOutcome
deriving DecidableEq

/-- Process exit status: `SystemExit` with a message exits 1, an unhandled
exception from `merge_pdfs` exits non-zero, a completed merge exits 0. -/
def exitCode : MainOutcome → Nat
  | MainOutcome.systemExit _ => 1
  | MainOutcome.ran _ r =>
    match r.outcome with
    | Except.ok _ => 0
    | Except.error _ => 1

/-- Model of `main` after argument parsing: collect candidates, bail out
with `SystemExit` when there are none, otherwise run the merge. -/
def main (fs : FS) (a : Args) : MainOutcome :=
  if (collectFiles fs a).isEmpty then
    MainOutcome.systemExit "No PDF files found to merge."
  else
    MainOutcome.ran (collectFiles fs a)
      (merge_pdfs fs (collectFiles fs a) a.output a.password a.strict)

/-- Pages of the parsed document at a path, empty for non-documents; used
to state concatenation results. -/
def pagesOf (fs : FS) (p : String) : List Nat :=
  match fs.file p with
  | FileKind.pdf _ _ pgs => pgs
  | _ => []

/-- Sum of the page counts reported by the `[OK]` log lines: the pages
contributed by the successfully processed input files. -/
def sumOk : List LogMsg → Nat
  | [] => 0
  | LogMsg.okAdded n _ :: rest => n + sumOk rest
  | _ :: rest => sumOk rest

/-- Decryption oracle of the sample encrypted file used by the concrete
checks below: only the password `pw` succeeds. -/
def decSample : String → Option String :=
  fun pw => if pw = "pw" then none else some "wrong password"

/-- Sample file system used by the concrete checks below: two plain PDFs,
one encrypted PDF, one corrupt file; every other path is absent. -/
def fsSample : FS :=
  ⟨fun p =>
    if p = "a.pdf" then FileKind.pdf false (fun _ => none) [1, 2]
    else if p = "b.pdf" then FileKind.pdf false (fun _ => none) [3]
    else if p = "enc.pdf" then FileKind.pdf true decSample [5]
    else if p = "bad.pdf" then FileKind.unparsable "broken"
    else FileKind.missing,
   fun _ => [("d", "x.pdf")],
   fun _ => 0,
   fun _ => 0⟩

/-- Sample parsed arguments in explicit-list mode, used by the concrete
checks below. -/
def argsExplicit (l : List String) : Args :=
  ⟨some l, none, "out.pdf", "name", false, none, false⟩

/-- Counting `[OK]` pages distributes over log concatenation. -/
theorem sumOk_append (l₁ l₂ : List LogMsg) : sumOk (l₁ ++ l₂) = sumOk l₁ + sumOk l₂ := by
  induction l₁ with
  | nil => simp [sumOk]
  | cons m rest ih => cases m <;> simp [sumOk, ih, Nat.add_assoc]

/-- The merge loop on a concatenation runs the first part and, when no
exception escaped it, continues with the second from the reached state. -/
theorem mergeLoop_append (fs : FS) (pw : Option String) (st : Bool)
    (l₁ l₂ : List String) (s : LoopState) :
    mergeLoop fs pw st (l₁ ++ l₂) s =
      match mergeLoop fs pw st l₁ s with
      | (t, none) => mergeLoop fs pw st l₂ t
      | (t, some e) => (t, some e) := by
  induction l₁ generalizing s with
  | nil => simp [mergeLoop]
  | cons p rest ih =>
    simp only [List.cons_append, mergeLoop]
    rcases h : processFile fs pw st p s with ⟨t, ab⟩
    cases ab <;> simp [ih]

/-- One loop iteration only ever extends the state: the writer grows by
some page block `w`, `pages_added` by its length, the log by messages whose
`[OK]` counts sum to exactly that length. -/
theorem processFile_delta (fs : FS) (pw : Option String) (st : Bool)
    (path : String) (s : LoopState) :
    ∃ w ms, (processFile fs pw st path s).1 =
      ⟨s.writer ++ w, s.pages_added + w.length, s.log ++ ms⟩ ∧ sumOk ms = w.length := by
  unfold processFile
  by_cases h1 : endsPdf path = false
  · exact ⟨[], [], by simp [h1], rfl⟩
  · simp only [h1, if_false]
    cases hf : fs.file path with
    | missing => exact ⟨[], [LogMsg.warnNotFound path], by simp [addLog], rfl⟩
    | unparsable e => exact ⟨[], [LogMsg.errFailedRead path e], by simp [addLog], rfl⟩
    | pdf enc dec pgs =>
      by_cases he : enc
      · by_cases hp : pyTruthy pw = true
        · cases hd : dec (pw.getD "") with
          | some e =>
            by_cases hs : st
            · exact ⟨[], [LogMsg.warnDecrypt path e, LogMsg.errFailedRead path e],
                by simp [he, hp, hd, hs, addLog], by simp [sumOk]⟩
            · exact ⟨[], [LogMsg.warnDecrypt path e],
                by simp [he, hp, hd, hs, addLog], rfl⟩
          | none =>
            exact ⟨pgs, [LogMsg.okAdded pgs.length path],
              by simp [he, hp, hd, addPages], by simp [sumOk]⟩
        · by_cases hs : st
          · exact ⟨[], [LogMsg.warnNoPassword path, LogMsg.errFailedRead path (pwdMsg path)],
              by simp [he, hp, hs, addLog], by simp [sumOk]⟩
          · exact ⟨[], [LogMsg.warnNoPassword path],
              by simp [he, hp, hs, addLog], rfl⟩
      · exact ⟨pgs, [LogMsg.okAdded pgs.length path],
          by simp [he, addPages], by simp [sumOk]⟩

/-- The whole loop only ever extends the state, and the `[OK]` counts in
the produced log sum to the number of pages put into the writer. -/
theorem mergeLoop_delta (fs : FS) (pw : Option String) (st : Bool)
    (l : List String) (s : LoopState) :
    ∃ w ms, (mergeLoop fs pw st l s).1 =
      ⟨s.writer ++ w, s.pages_added + w.length, s.log ++ ms⟩ ∧ sumOk ms = w.length := by
  induction l generalizing s with
  | nil => exact ⟨[], [], by simp [mergeLoop], rfl⟩
  | cons p rest ih =>
    simp only [mergeLoop]
    rcases hpf : processFile fs pw st p s with ⟨t, ab⟩
    obtain ⟨w₁, ms₁, ht, hs₁⟩ := processFile_delta fs pw st p s
    rw [hpf] at ht
    cases ab with
    | none =>
      simp only
      obtain ⟨w₂, ms₂, ht₂, hs₂⟩ := ih t
      have ht' : t = ⟨s.writer ++ w₁, s.pages_added + w₁.length, s.log ++ ms₁⟩ := ht
      refine ⟨w₁ ++ w₂, ms₁ ++ ms₂, ?_, ?_⟩
      · rw [ht₂, ht']
        simp [List.append_assoc, Nat.add_assoc]
      · rw [sumOk_append, hs₁, hs₂]
        simp
    | some e =>
      exact ⟨w₁, ms₁, by simpa using ht, hs₁⟩

/-- A well-formed unencrypted document is appended wholesale and the loop
continues. -/
theorem processFile_valid (fs : FS) (pw : Option String) (st : Bool)
    (path : String) (s : LoopState) (d : String → Option String) (pgs : List Nat)
    (h1 : endsPdf path = true) (h2 : fs.file path = FileKind.pdf false d pgs) :
    processFile fs pw st path s = (addPages s path pgs, none) := by
  unfold processFile
  simp [h1, h2]

/-- A missing input file logs a warning and the loop continues, whatever
the strict flag says. -/
theorem processFile_missing (fs : FS) (pw : Option String) (st : Bool)
    (path : String) (s : LoopState)
    (h1 : endsPdf path = true) (h2 : fs.file path = FileKind.missing) :
    processFile fs pw st path s = (addLog s [LogMsg.warnNotFound path], none) := by
  unfold processFile
  simp [h1, h2]

/-- An encrypted document with no password and without strict mode logs a
warning and the loop continues. -/
theorem processFile_nopw_lax (fs : FS) (path : String) (s : LoopState)
    (d : String → Option String) (pgs : List Nat)
    (h1 : endsPdf path = true) (h2 : fs.file path = FileKind.pdf true d pgs) :
    processFile fs none false path s = (addLog s [LogMsg.warnNoPassword path], none) := by
  unfold processFile
  simp [h1, h2, pyTruthy]

/-- An encrypted document with no password under strict mode logs the
warning, then the `[ERROR]` line from the outer handler, and the
password-required `RuntimeError` escapes. -/
theorem processFile_nopw_strict (fs : FS) (path : String) (s : LoopState)
    (d : String → Option String) (pgs : List Nat)
    (h1 : endsPdf path = true) (h2 : fs.file path = FileKind.pdf true d pgs) :
    processFile fs none true path s =
      (addLog s [LogMsg.warnNoPassword path, LogMsg.errFailedRead path (pwdMsg path)],
       some (Exc.runtimeError (pwdMsg path))) := by
  unfold processFile
  simp [h1, h2, pyTruthy]

/-- A failed decryption without strict mode logs a warning and the loop
continues; no page of the file is appended. -/
theorem processFile_badpw_lax (fs : FS) (path : String) (s : LoopState)
    (d : String → Option String) (pgs : List Nat) (p e : String)
    (h1 : endsPdf path = true) (h2 : fs.file path = FileKind.pdf true d pgs)
    (h3 : p ≠ "") (h4 : d p = some e) :
    processFile fs (some p) false path s = (addLog s [LogMsg.warnDecrypt path e], none) := by
  unfold processFile
  simp [h1, h2, pyTruthy, h3, h4]

/-- A failed decryption under strict mode logs the warning, then the
`[ERROR]` line from the outer handler, and the library exception escapes. -/
theorem processFile_badpw_strict (fs : FS) (path : String) (s : LoopState)
    (d : String → Option String) (pgs : List Nat) (p e : String)
    (h1 : endsPdf path = true) (h2 : fs.file path = FileKind.pdf true d pgs)
    (h3 : p ≠ "") (h4 : d p = some e) :
    processFile fs (some p) true path s =
      (addLog s [LogMsg.warnDecrypt path e, LogMsg.errFailedRead path e],
       some (Exc.libError e)) := by
  unfold processFile
  simp [h1, h2, pyTruthy, h3, h4]

/-- On a list of well-formed unencrypted documents the loop appends every
page of every file in order, counts them all, and never aborts. -/
theorem mergeLoop_allValid (fs : FS) (pw : Option String) (st : Bool)
    (l : List String) (s : LoopState)
    (hv : ∀ p ∈ l, endsPdf p = true ∧ ∃ d pgs, fs.file p = FileKind.pdf false d pgs) :
    mergeLoop fs pw st l s =
      (⟨s.writer ++ (l.map (pagesOf fs)).flatten,
        s.pages_added + ((l.map (fun p => (pagesOf fs p).length)).sum),
        s.log ++ l.map (fun p => LogMsg.okAdded (pagesOf fs p).length p)⟩, none) := by
  induction l generalizing s with
  | nil => simp [mergeLoop]
  | cons p rest ih =>
    obtain ⟨h1, d, pgs, h2⟩ := hv p (by simp)
    have hrest : ∀ q ∈ rest, endsPdf q = true ∧ ∃ d pgs, fs.file q = FileKind.pdf false d pgs :=
      fun q hq => hv q (by simp [hq])
    have hpg : pagesOf fs p = pgs := by simp [pagesOf, h2]
    simp only [mergeLoop, processFile_valid fs pw st p s d pgs h1 h2]
    rw [ih (addPages s p pgs) hrest]
    simp [addPages, hpg, List.append_assoc, Nat.add_assoc]

/-- Head characterisation of the lexicographic comparison. -/
theorem strLt_cons_iff (x y : Char) (xs ys : List Char) :
    strLt (x :: xs) (y :: ys) = true ↔ x < y ∨ (x = y ∧ strLt xs ys = true) := by
  simp only [strLt]
  by_cases h1 : x < y
  · simp [h1]
  · by_cases h2 : y < x
    · simp only [if_neg h1, if_pos h2, Bool.false_eq_true, false_iff]
      rintro (h | ⟨rfl, _⟩)
      · exact h1 h
      · exact absurd h2 (lt_irrefl x)
    · have he : x = y := le_antisymm (not_lt.mp h2) (not_lt.mp h1)
      simp [h1, h2, he]

/-- The lexicographic comparison is irreflexive. -/
theorem strLt_irrefl : ∀ l : List Char, strLt l l = false
  | [] => rfl
  | a :: as => by simp [strLt, strLt_irrefl as]

/-- The lexicographic comparison is transitive. -/
theorem strLt_trans : ∀ a b c : List Char,
    strLt a b = true → strLt b c = true → strLt a c = true := by
  intro a
  induction a with
  | nil =>
    intro b c _ h2
    cases c with
    | nil => cases b <;> simp [strLt] at h2
    | cons z zs => rfl
  | cons x xs ih =>
    intro b c h1 h2
    cases b with
    | nil => simp [strLt] at h1
    | cons y ys =>
      cases c with
      | nil => simp [strLt] at h2
      | cons z zs =>
        rw [strLt_cons_iff] at h1 h2 ⊢
        rcases h1 with hxy | ⟨rfl, h1'⟩
        · rcases h2 with hyz | ⟨rfl, _⟩
          · exact Or.inl (lt_trans hxy hyz)
          · exact Or.inl hxy
        · rcases h2 with hyz | ⟨rfl, h2'⟩
          · exact Or.inl hyz
          · exact Or.inr ⟨rfl, ih ys zs h1' h2'⟩

/-- Two lists neither of which lexicographically precedes the other are
equal. -/
theorem strLt_connex : ∀ a b : List Char,
    strLt a b = false → strLt b a = false → a = b := by
  intro a
  induction a with
  | nil =>
    intro b h1 _
    cases b with
    | nil => rfl
    | cons z zs => simp [strLt] at h1
  | cons x xs ih =>
    intro b h1 h2
    cases b with
    | nil => simp [strLt] at h2
    | cons y ys =>
      rw [← Bool.not_eq_true, strLt_cons_iff] at h1 h2
      push_neg at h1 h2
      have he : x = y := le_antisymm h2.1 h1.1
      subst he
      have e1 : strLt xs ys = false := by
        have := h1.2 rfl
        simpa using this
      have e2 : strLt ys xs = false := by
        have := h2.2 rfl
        simpa using this
      rw [ih ys e1 e2]

/-- The string comparison used for the name key is reflexive. -/
theorem strLe_refl (a : String) : strLe a a = true := by
  simp [strLe, strLt_irrefl]

/-- The string comparison used for the name key is total. -/
theorem strLe_total (a b : String) : strLe a b = true ∨ strLe b a = true := by
  by_cases h : strLt b.data a.data = true
  · right
    simp only [strLe, Bool.not_eq_true']
    by_contra hc
    simp only [Bool.not_eq_false] at hc
    have := strLt_trans _ _ _ h hc
    simp [strLt_irrefl] at this
  · left
    simp only [strLe, Bool.not_eq_true'] at *
    simpa using h

/-- The string comparison used for the name key is transitive. -/
theorem strLe_trans (a b c : String) :
    strLe a b = true → strLe b c = true → strLe a c = true := by
  simp only [strLe, Bool.not_eq_true']
  intro h1 h2
  by_contra hc
  simp only [Bool.not_eq_false] at hc
  by_cases hbc : strLt b.data c.data = true
  · have := strLt_trans _ _ _ hbc hc
    rw [this] at h1
    cases h1
  · have hbc' : strLt b.data c.data = false := by simpa using hbc
    have he : c.data = b.data := strLt_connex _ _ h2 hbc'
    rw [he] at hc
    rw [hc] at h1
    cases h1

/-- Stable insertion permutes the element onto the list. -/
theorem insertSt_perm {α : Type} (le : α → α → Bool) (x : α) (l : List α) :
    (insertSt le x l).Perm (x :: l) := by
  induction l with
  | nil => exact List.Perm.refl _
  | cons y ys ih =>
    simp only [insertSt]
    by_cases h : le x y = true
    · simp [h]
    · simp only [h, if_false, Bool.false_eq_true]
      exact (ih.cons y).trans (List.Perm.swap x y ys)

/-- Membership after a stable insertion. -/
theorem mem_insertSt {α : Type} (le : α → α → Bool) (x z : α) (l : List α) :
    z ∈ insertSt le x l ↔ z = x ∨ z ∈ l := by
  rw [(insertSt_perm le x l).mem_iff]
  simp

/-- Stable insertion into a sorted list stays sorted, for a total
transitive comparison. -/
theorem insertSt_pairwise {α : Type} (le : α → α → Bool)
    (htot : ∀ a b, le a b = true ∨ le b a = true)
    (htr : ∀ a b c, le a b = true → le b c = true → le a c = true)
    (x : α) (l : List α) (hp : List.Pairwise (fun a b => le a b = true) l) :
    List.Pairwise (fun a b => le a b = true) (insertSt le x l) := by
  induction l with
  | nil => simp [insertSt]
  | cons y ys ih =>
    rcases List.pairwise_cons.mp hp with ⟨hy, hys⟩
    simp only [insertSt]
    by_cases h : le x y = true
    · simp only [h, if_true]
      refine List.pairwise_cons.mpr ⟨?_, hp⟩
      intro z hz
      rcases List.mem_cons.mp hz with rfl | hz'
      · exact h
      · exact htr x y z h (hy z hz')
    · simp only [h, if_false, Bool.false_eq_true]
      refine List.pairwise_cons.mpr ⟨?_, ih hys⟩
      intro z hz
      rcases (mem_insertSt le x z ys).mp hz with rfl | hz'
      · rcases htot z y with hzy | hyz
        · exact absurd hzy h
        · exact hyz
      · exact hy z hz'

/-- The stable sort permutes its input. -/
theorem pySorted_perm {α : Type} (le : α → α → Bool) (l : List α) :
    (pySorted le l).Perm l := by
  induction l with
  | nil => exact List.Perm.refl _
  | cons x xs ih =>
    simp only [pySorted]
    exact (insertSt_perm le x (pySorted le xs)).trans (ih.cons x)

/-- The stable sort sorts, for a total transitive comparison. -/
theorem pySorted_pairwise {α : Type} (le : α → α → Bool)
    (htot : ∀ a b, le a b = true ∨ le b a = true)
    (htr : ∀ a b c, le a b = true → le b c = true → le a c = true)
    (l : List α) :
    List.Pairwise (fun a b => le a b = true) (pySorted le l) := by
  induction l with
  | nil => simp [pySorted]
  | cons x xs ih =>
    simp only [pySorted]
    exact insertSt_pairwise le htot htr x (pySorted le xs) ih

/-- Stable insertion splits the list at the insertion point: everything
left of the inserted element strictly precedes it. -/
theorem insertSt_split {α : Type} (le : α → α → Bool) (x : α) (l : List α) :
    ∃ l₁ l₂, l = l₁ ++ l₂ ∧ insertSt le x l = l₁ ++ x :: l₂ ∧
      ∀ y ∈ l₁, le x y = false := by
  induction l with
  | nil => exact ⟨[], [], rfl, rfl, by simp⟩
  | cons y ys ih =>
    by_cases h : le x y = true
    · exact ⟨[], y :: ys, rfl, by simp [insertSt, h], by simp⟩
    · obtain ⟨l₁, l₂, he, hi, hf⟩ := ih
      refine ⟨y :: l₁, l₂, by simp [he], ?_, ?_⟩
      · simp only [insertSt, h, if_false, Bool.false_eq_true, List.cons_append]
        rw [hi]
      · intro z hz
        rcases List.mem_cons.mp hz with rfl | hz'
        · exact Bool.not_eq_true _ ▸ h
        · exact hf z hz'

/-- Filtering a key class commutes with stable insertion when the
comparison cannot separate elements of the class. -/
theorem filter_insertSt {α : Type} (le : α → α → Bool) (q : α → Bool)
    (hq : ∀ a b, q a = true → q b = true → le a b = true)
    (x : α) (l : List α) :
    (insertSt le x l).filter q = if q x then x :: l.filter q else l.filter q := by
  obtain ⟨l₁, l₂, he, hi, hf⟩ := insertSt_split le x l
  subst he
  rw [hi]
  by_cases hx : q x = true
  · have h1 : l₁.filter q = [] := by
      rw [List.filter_eq_nil_iff]
      intro a ha hqa
      have := hq x a hx (by simpa using hqa)
      rw [hf a ha] at this
      cases this
    simp [List.filter_append, hx, h1]
  · have hx' : q x = false := by simpa using hx
    simp [List.filter_append, hx']

/-- Stability of the sort: the elements of each key class come out in the
order they went in. -/
theorem pySorted_filter {α : Type} (le : α → α → Bool) (q : α → Bool)
    (hq : ∀ a b, q a = true → q b = true → le a b = true) (l : List α) :
    (pySorted le l).filter q = l.filter q := by
  induction l with
  | nil => rfl
  | cons x xs ih =>
    simp only [pySorted]
    rw [filter_insertSt le q hq x (pySorted le xs)]
    by_cases hx : q x = true
    · simp [hx, ih, List.filter_cons]
    · have hx' : q x = false := by simpa using hx
      simp [hx', ih, List.filter_cons]

/-- Totality of the key comparison lifts to the element comparison of
`sorted`, in both directions. -/
theorem pyLeB_total {α β : Type} (bLe : β → β → Bool)
    (hbt : ∀ u v, bLe u v = true ∨ bLe v u = true) (k : α → β) (rv : Bool) :
    ∀ a b, pyLeB bLe k rv a b = true ∨ pyLeB bLe k rv b a = true := by
  intro a b
  cases rv <;> simp only [pyLeB, if_true, if_false, Bool.false_eq_true]
  · exact hbt (k a) (k b)
  · exact hbt (k b) (k a)

/-- Transitivity of the key comparison lifts to the element comparison of
`sorted`, in both directions. -/
theorem pyLeB_trans {α β : Type} (bLe : β → β → Bool)
    (hbtr : ∀ u v w, bLe u v = true → bLe v w = true → bLe u w = true)
    (k : α → β) (rv : Bool) :
    ∀ a b c, pyLeB bLe k rv a b = true → pyLeB bLe k rv b c = true →
      pyLeB bLe k rv a c = true := by
  intro a b c
  cases rv <;> simp only [pyLeB, if_true, if_false, Bool.false_eq_true]
  · exact hbtr (k a) (k b) (k c)
  · intro h1 h2
    exact hbtr (k c) (k b) (k a) h2 h1

/-- Elements with the same key cannot be separated by the element
comparison of `sorted`, in either direction. -/
theorem pyLeB_key_eq {α β : Type} [BEq β] [LawfulBEq β] (bLe : β → β → Bool)
    (hbr : ∀ v, bLe v v = true) (k : α → β) (rv : Bool) (c : β) :
    ∀ a b, (k a == c) = true → (k b == c) = true → pyLeB bLe k rv a b = true := by
  intro a b ha hb
  have ea : k a = c := by simpa using ha
  have eb : k b = c := by simpa using hb
  cases rv <;> simp [pyLeB, ea, eb, hbr]

/-- With the `name` key, `sort_files` is the stable sort by the
case-insensitive basename, in the requested direction. -/
theorem sort_files_name_eq (fs : FS) (files : List String) (rv : Bool) :
    sort_files fs files "name" rv = pySorted (pyLeB strLe nameKey rv) files := by
  simp [sort_files]

/-- Success path of `merge_pdfs`: when the loop finishes without an
exception and with a positive page count, the writer is flushed to the
output path and the count returned. -/
theorem merge_pdfs_success (fs : FS) (pw : Option String) (st : Bool) (out : String)
    (inputs : List String) (t : LoopState)
    (hm : mergeLoop fs pw st inputs initState = (t, none)) (h0 : t.pages_added ≠ 0) :
    merge_pdfs fs inputs out pw st =
      ⟨Except.ok t.pages_added, some t.writer,
       t.log ++ [LogMsg.doneWrote out t.pages_added]⟩ := by
  unfold merge_pdfs
  rw [hm]
  simp [h0]

/-- Abort path of `merge_pdfs`: an exception escaping the loop propagates
and nothing is written. -/
theorem merge_pdfs_abort (fs : FS) (pw : Option String) (st : Bool) (out : String)
    (inputs : List String) (t : LoopState) (e : Exc)
    (hm : mergeLoop fs pw st inputs initState = (t, some e)) :
    merge_pdfs fs inputs out pw st = ⟨Except.error e, none, t.log⟩ := by
  unfold merge_pdfs
  rw [hm]

/-- Zero-pages path of `merge_pdfs`: when the loop finishes without an
exception but appended nothing, the `No pages added` error is raised and
nothing is written. -/
theorem merge_pdfs_noPages (fs : FS) (pw : Option String) (st : Bool) (out : String)
    (inputs : List String) (t : LoopState)
    (hm : mergeLoop fs pw st inputs initState = (t, none)) (h0 : t.pages_added = 0) :
    merge_pdfs fs inputs out pw st =
      ⟨Except.error (Exc.runtimeError "No pages added. Check inputs."), none, t.log⟩ := by
  unfold merge_pdfs
  rw [hm]
  simp [h0]

/-- The loop from the initial state ends with `pages_added` equal to the
writer length and to the `[OK]` page sum of the log. -/
theorem mergeLoop_init_delta (fs : FS) (pw : Option String) (st : Bool)
    (inputs : List String) :
    ∃ w ms, (mergeLoop fs pw st inputs initState).1 = ⟨w, w.length, ms⟩ ∧
      sumOk ms = w.length := by
  obtain ⟨w, ms, ht, hs⟩ := mergeLoop_delta fs pw st inputs initState
  refine ⟨w, ms, ?_, hs⟩
  rw [ht]
  simp [initState]

/-- C1: for every non-empty list of paths that end in `.pdf`
(case-insensitively), exist, and parse as unencrypted PDF documents with at
least one page in total, `merge_pdfs` writes exactly the concatenation of
the inputs' pages in list order, returns the sum of the per-file page
counts, and logs one `[OK]` line per file followed by the `[DONE]` line. -/
theorem C1_merge_concat (fs : FS) (pw : Option String) (st : Bool) (out : String)
    (inputs : List String) (hne : inputs ≠ [])
    (hv : ∀ p ∈ inputs, endsPdf p = true ∧ ∃ d pgs, fs.file p = FileKind.pdf false d pgs)
    (htot : 0 < (inputs.map (fun p => (pagesOf fs p).length)).sum) :
    merge_pdfs fs inputs out pw st =
      ⟨Except.ok ((inputs.map (fun p => (pagesOf fs p).length)).sum),
       some ((inputs.map (pagesOf fs)).flatten),
       inputs.map (fun p => LogMsg.okAdded (pagesOf fs p).length p)
         ++ [LogMsg.doneWrote out ((inputs.map (fun p => (pagesOf fs p).length)).sum)]⟩ := by
  unfold merge_pdfs
  rw [mergeLoop_allValid fs pw st inputs initState hv]
  simp [initState, Nat.pos_iff_ne_zero.mp htot]

/-- C1 witness: a concrete two-file merge producing three pages. -/
theorem C1_merge_concat_witness :
    ((["a.pdf", "b.pdf"] : List String) ≠ [])
    ∧ (0 < ((["a.pdf", "b.pdf"].map (fun p => (pagesOf fsSample p).length)).sum))
    ∧ merge_pdfs fsSample ["a.pdf", "b.pdf"] "out.pdf" none false =
        ⟨Except.ok 3, some [1, 2, 3],
         [LogMsg.okAdded 2 "a.pdf", LogMsg.okAdded 1 "b.pdf", LogMsg.doneWrote "out.pdf" 3]⟩ := by
  have hv : ∀ p ∈ ["a.pdf", "b.pdf"], endsPdf p = true ∧
      ∃ d pgs, fsSample.file p = FileKind.pdf false d pgs := by
    intro p hp
    rcases List.mem_cons.mp hp with rfl | hp'
    · exact ⟨by decide, ⟨fun _ => none, [1, 2], rfl⟩⟩
    · rcases List.mem_cons.mp hp' with rfl | hp''
      · exact ⟨by decide, ⟨fun _ => none, [3], rfl⟩⟩
      · cases hp''
  refine ⟨by decide, by decide, ?_⟩
  rw [C1_merge_concat fsSample none false "out.pdf" ["a.pdf", "b.pdf"] (by decide) hv (by decide)]
  decide

/-- C2: after every merge invocation the writer holds exactly as many
pages as `pages_added`, which equals the sum of the `[OK]`-reported page
counts of the successfully processed files; and a written output is
exactly the writer at the end of the loop, with the returned count equal to
its length. -/
theorem C2_pages_invariant (fs : FS) (pw : Option String) (st : Bool) (out : String)
    (inputs : List String) :
    ((mergeLoop fs pw st inputs initState).1.writer.length
        = (mergeLoop fs pw st inputs initState).1.pages_added)
    ∧ ((mergeLoop fs pw st inputs initState).1.pages_added
        = sumOk (mergeLoop fs pw st inputs initState).1.log)
    ∧ (∀ l, (merge_pdfs fs inputs out pw st).written = some l →
        l = (mergeLoop fs pw st inputs initState).1.writer
        ∧ l.length = sumOk (merge_pdfs fs inputs out pw st).log
        ∧ (merge_pdfs fs inputs out pw st).outcome = Except.ok l.length) := by
  obtain ⟨w, ms, ht, hs⟩ := mergeLoop_init_delta fs pw st inputs
  refine ⟨?_, ?_, ?_⟩
  · rw [ht]
  · rw [ht]
    exact hs.symm
  · intro l hl
    rcases hm : mergeLoop fs pw st inputs initState with ⟨t, ab⟩
    rw [hm] at ht
    simp only at ht
    cases ab with
    | some e =>
      rw [merge_pdfs_abort fs pw st out inputs t e hm] at hl
      simp at hl
    | none =>
      by_cases h0 : t.pages_added = 0
      · rw [merge_pdfs_noPages fs pw st out inputs t hm h0] at hl
        simp at hl
      · rw [merge_pdfs_success fs pw st out inputs t hm h0] at hl
        have hlw : l = t.writer := by simpa using hl.symm
        refine ⟨?_, ?_, ?_⟩
        · exact hlw
        · rw [merge_pdfs_success fs pw st out inputs t hm h0]
          rw [hlw, ht]
          simp [sumOk_append, hs, sumOk]
        · rw [merge_pdfs_success fs pw st out inputs t hm h0]
          rw [hlw, ht]

/-- C2 witness: a one-file merge writing two pages, with the written list
equal to the loop writer, its length equal to the `[OK]` sum of the log,
and the returned count equal to its length. -/
theorem C2_pages_invariant_witness :
    (merge_pdfs fsSample ["a.pdf"] "o.pdf" none false).written = some [1, 2]
    ∧ ([1, 2] : List Nat) = (mergeLoop fsSample none false ["a.pdf"] initState).1.writer
    ∧ ([1, 2] : List Nat).length = sumOk (merge_pdfs fsSample ["a.pdf"] "o.pdf" none false).log
    ∧ (merge_pdfs fsSample ["a.pdf"] "o.pdf" none false).outcome
        = Except.ok ([1, 2] : List Nat).length := by
  have h := (C2_pages_invariant fsSample none false "o.pdf" ["a.pdf"]).2.2 [1, 2] (by decide)
  exact ⟨by decide, h.1, h.2.1, h.2.2⟩

/-- C3: whenever the loop over the inputs finishes (any input list, any
flag combination) having appended zero pages, `merge_pdfs` raises the
`No pages added` `RuntimeError` and writes nothing to the output path. -/
theorem C3_no_pages_error (fs : FS) (pw : Option String) (st : Bool) (out : String)
    (inputs : List String) (t : LoopState)
    (hm : mergeLoop fs pw st inputs initState = (t, none))
    (h0 : t.pages_added = 0) :
    merge_pdfs fs inputs out pw st =
      ⟨Except.error (Exc.runtimeError "No pages added. Check inputs."), none, t.log⟩ :=
  merge_pdfs_noPages fs pw st out inputs t hm h0

/-- C3 witness: one missing input file, so zero pages are appended, the
error is raised and nothing is written. -/
theorem C3_no_pages_error_witness :
    mergeLoop fsSample none false ["z.pdf"] initState
        = (⟨[], 0, [LogMsg.warnNotFound "z.pdf"]⟩, none)
    ∧ (⟨[], 0, [LogMsg.warnNotFound "z.pdf"]⟩ : LoopState).pages_added = 0
    ∧ merge_pdfs fsSample ["z.pdf"] "o.pdf" none false =
        ⟨Except.error (Exc.runtimeError "No pages added. Check inputs."), none,
         [LogMsg.warnNotFound "z.pdf"]⟩ :=
  ⟨by decide, rfl,
   C3_no_pages_error fsSample none false "o.pdf" ["z.pdf"]
     ⟨[], 0, [LogMsg.warnNotFound "z.pdf"]⟩ (by decide) rfl⟩

/-- C4: an encrypted input with no password supplied is warned about and
skipped in non-strict mode (the loop continues on the rest with nothing
else changed), while in strict mode the merge aborts with the explicit
password-required `RuntimeError` and nothing is written. -/
theorem C4_encrypted_no_password (fs : FS) (p : String) (d : String → Option String)
    (pgs : List Nat) (h1 : endsPdf p = true) (h2 : fs.file p = FileKind.pdf true d pgs) :
    (∀ rest s, mergeLoop fs none false (p :: rest) s =
        mergeLoop fs none false rest (addLog s [LogMsg.warnNoPassword p]))
    ∧ (∀ out pre rest t, mergeLoop fs none true pre initState = (t, none) →
        merge_pdfs fs (pre ++ p :: rest) out none true =
          ⟨Except.error (Exc.runtimeError (pwdMsg p)), none,
           t.log ++ [LogMsg.warnNoPassword p, LogMsg.errFailedRead p (pwdMsg p)]⟩) := by
  constructor
  · intro rest s
    simp only [mergeLoop, processFile_nopw_lax fs p s d pgs h1 h2]
  · intro out pre rest t hpre
    unfold merge_pdfs
    rw [mergeLoop_append, hpre]
    simp only [mergeLoop, processFile_nopw_strict fs p t d pgs h1 h2]
    simp [addLog]

/-- C4 witness: the sample encrypted file without a password, skipped with
a warning in non-strict mode, fatal with the password-required error and no
written output in strict mode. -/
theorem C4_encrypted_no_password_witness :
    endsPdf "enc.pdf" = true
    ∧ fsSample.file "enc.pdf" = FileKind.pdf true decSample [5]
    ∧ mergeLoop fsSample none false ["enc.pdf"] initState
        = (⟨[], 0, [LogMsg.warnNoPassword "enc.pdf"]⟩, none)
    ∧ merge_pdfs fsSample ["enc.pdf"] "o.pdf" none true =
        ⟨Except.error (Exc.runtimeError (pwdMsg "enc.pdf")), none,
         [LogMsg.warnNoPassword "enc.pdf",
          LogMsg.errFailedRead "enc.pdf" (pwdMsg "enc.pdf")]⟩ := by
  have h := C4_encrypted_no_password fsSample "enc.pdf" decSample [5] (by decide) rfl
  refine ⟨by decide, rfl, ?_, ?_⟩
  · exact (h.1 [] initState).trans (by decide)
  · exact (h.2 "o.pdf" [] [] initState rfl).trans (by decide)

/-- C5: an encrypted input with a supplied password has decryption
attempted; when decryption fails, in non-strict mode the file is warned
about and skipped with no pages appended, and in strict mode the merge
aborts propagating the underlying library exception, with nothing
written. -/
theorem C5_decrypt_failure (fs : FS) (p : String) (d : String → Option String)
    (pgs : List Nat) (pw e : String)
    (h1 : endsPdf p = true) (h2 : fs.file p = FileKind.pdf true d pgs)
    (h3 : pw ≠ "") (h4 : d pw = some e) :
    (∀ rest s, mergeLoop fs (some pw) false (p :: rest) s =
        mergeLoop fs (some pw) false rest (addLog s [LogMsg.warnDecrypt p e]))
    ∧ (∀ out pre rest t, mergeLoop fs (some pw) true pre initState = (t, none) →
        merge_pdfs fs (pre ++ p :: rest) out (some pw) true =
          ⟨Except.error (Exc.libError e), none,
           t.log ++ [LogMsg.warnDecrypt p e, LogMsg.errFailedRead p e]⟩) := by
  constructor
  · intro rest s
    simp only [mergeLoop, processFile_badpw_lax fs p s d pgs pw e h1 h2 h3 h4]
  · intro out pre rest t hpre
    unfold merge_pdfs
    rw [mergeLoop_append, hpre]
    simp only [mergeLoop, processFile_badpw_strict fs p t d pgs pw e h1 h2 h3 h4]
    simp [addLog]

/-- C5 witness: the sample encrypted file with a wrong password, skipped
with a warning in non-strict mode, fatal with the propagated library error
and no written output in strict mode. -/
theorem C5_decrypt_failure_witness :
    endsPdf "enc.pdf" = true
    ∧ fsSample.file "enc.pdf" = FileKind.pdf true decSample [5]
    ∧ ("bad" : String) ≠ ""
    ∧ decSample "bad" = some "wrong password"
    ∧ mergeLoop fsSample (some "bad") false ["enc.pdf"] initState
        = (⟨[], 0, [LogMsg.warnDecrypt "enc.pdf" "wrong password"]⟩, none)
    ∧ merge_pdfs fsSample ["enc.pdf"] "o.pdf" (some "bad") true =
        ⟨Except.error (Exc.libError "wrong password"), none,
         [LogMsg.warnDecrypt "enc.pdf" "wrong password",
          LogMsg.errFailedRead "enc.pdf" "wrong password"]⟩ := by
  have h := C5_decrypt_failure fsSample "enc.pdf" decSample [5] "bad" "wrong password"
    (by decide) rfl (by decide) rfl
  refine ⟨by decide, rfl, by decide, rfl, ?_, ?_⟩
  · exact (h.1 [] initState).trans (by decide)
  · exact (h.2 "o.pdf" [] [] initState rfl).trans (by decide)

/-- C6: a `.pdf` path that does not exist is warned about and skipped, and
the loop continues with the rest, for every password and both values of the
strict flag: a missing file never aborts the merge. -/
theorem C6_missing_skipped (fs : FS) (p : String)
    (h1 : endsPdf p = true) (h2 : fs.file p = FileKind.missing) :
    ∀ pw st rest s, mergeLoop fs pw st (p :: rest) s =
      mergeLoop fs pw st rest (addLog s [LogMsg.warnNotFound p]) := by
  intro pw st rest s
  simp only [mergeLoop, processFile_missing fs pw st p s h1 h2]

/-- C6 witness: a missing file under strict mode, warned about and skipped
without aborting. -/
theorem C6_missing_skipped_witness :
    endsPdf "z.pdf" = true
    ∧ fsSample.file "z.pdf" = FileKind.missing
    ∧ mergeLoop fsSample none true ["z.pdf"] initState
        = (⟨[], 0, [LogMsg.warnNotFound "z.pdf"]⟩, none) := by
  have h := C6_missing_skipped fsSample "z.pdf" (by decide) rfl
  exact ⟨by decide, rfl, (h none true [] initState).trans (by decide)⟩

/-- C7: sorting with the `name` key permutes the candidate list, orders it
by the case-insensitive comparison of basenames — ascending without the
reverse flag, descending with it — keeps elements with equal keys in their
original relative order, and on `["b.pdf", "A.pdf", "c.pdf"]` produces
`["A.pdf", "b.pdf", "c.pdf"]`, reversed `["c.pdf", "b.pdf", "A.pdf"]`. -/
theorem C7_sort_by_name (fs : FS) (files : List String) (rv : Bool) :
    (sort_files fs files "name" rv).Perm files
    ∧ List.Pairwise (fun a b => strLe (nameKey a) (nameKey b) = true)
        (sort_files fs files "name" false)
    ∧ List.Pairwise (fun a b => strLe (nameKey b) (nameKey a) = true)
        (sort_files fs files "name" true)
    ∧ (∀ c, (sort_files fs files "name" rv).filter (fun p => nameKey p == c)
          = files.filter (fun p => nameKey p == c))
    ∧ sort_files fs ["b.pdf", "A.pdf", "c.pdf"] "name" false = ["A.pdf", "b.pdf", "c.pdf"]
    ∧ sort_files fs ["b.pdf", "A.pdf", "c.pdf"] "name" true = ["c.pdf", "b.pdf", "A.pdf"] := by
  refine ⟨?_, ?_, ?_, ?_, ?_, ?_⟩
  · rw [sort_files_name_eq]
    exact pySorted_perm _ files
  · rw [sort_files_name_eq]
    have h := pySorted_pairwise (pyLeB strLe nameKey false)
      (pyLeB_total strLe strLe_total nameKey false)
      (pyLeB_trans strLe strLe_trans nameKey false) files
    simpa [pyLeB] using h
  · rw [sort_files_name_eq]
    have h := pySorted_pairwise (pyLeB strLe nameKey true)
      (pyLeB_total strLe strLe_total nameKey true)
      (pyLeB_trans strLe strLe_trans nameKey true) files
    simpa [pyLeB] using h
  · intro c
    rw [sort_files_name_eq]
    exact pySorted_filter _ _ (pyLeB_key_eq strLe strLe_refl nameKey rv c) files
  · rw [sort_files_name_eq]
    decide
  · rw [sort_files_name_eq]
    decide

/-- C8: in explicit-list mode the candidates are exactly the given entries
whose name ends in `.pdf` case-insensitively, in their original relative
order (a sublist of the input), with no sorting and no dependence on the
file system (so existence is not checked). -/
theorem C8_explicit_candidates (fs fs2 : FS) (a : Args) (l : List String)
    (hi : a.inputs = some l) (hne : l ≠ []) :
    collectFiles fs a = l.filter (fun f => endsPdf f)
    ∧ (collectFiles fs a).Sublist l
    ∧ collectFiles fs a = collectFiles fs2 a := by
  have hT : pyTruthyL (some l) = true := by
    simp [pyTruthyL, hne]
  have h1 : collectFiles fs a = l.filter (fun f => endsPdf f) := by
    unfold collectFiles
    simp [hi, hT]
  have h2 : collectFiles fs2 a = l.filter (fun f => endsPdf f) := by
    unfold collectFiles
    simp [hi, hT]
  refine ⟨h1, ?_, h1.trans h2.symm⟩
  rw [h1]
  exact List.filter_sublist l

/-- C8 witness: an explicit list with one non-PDF entry filtered out, in
order, independent of the file system. -/
theorem C8_explicit_candidates_witness :
    (argsExplicit ["x.pdf", "y.txt"]).inputs = some ["x.pdf", "y.txt"]
    ∧ (["x.pdf", "y.txt"] : List String) ≠ []
    ∧ collectFiles fsSample (argsExplicit ["x.pdf", "y.txt"]) = ["x.pdf"]
    ∧ (collectFiles fsSample (argsExplicit ["x.pdf", "y.txt"])).Sublist ["x.pdf", "y.txt"] := by
  have h := C8_explicit_candidates fsSample fsSample (argsExplicit ["x.pdf", "y.txt"])
    ["x.pdf", "y.txt"] rfl (by decide)
  refine ⟨rfl, by decide, ?_, h.2.1⟩
  rw [h.1]
  decide

/-- C9: when collection and filtering leave no candidate file, `main`
raises `SystemExit` with its message, the process exit status is non-zero,
and the merge is never attempted: the outcome carries no merge result, so
no output file is created. -/
theorem C9_no_candidates (fs : FS) (a : Args) (h : collectFiles fs a = []) :
    main fs a = MainOutcome.systemExit "No PDF files found to merge."
    ∧ exitCode (main fs a) = 1
    ∧ ∀ files r, main fs a ≠ MainOutcome.ran files r := by
  have hm : main fs a = MainOutcome.systemExit "No PDF files found to merge." := by
    unfold main
    simp [h]
  refine ⟨hm, by rw [hm]; rfl, ?_⟩
  intro files r hc
  rw [hm] at hc
  cases hc

/-- C9 witness: an explicit list whose only entry is not a PDF, so the
candidate list is empty and `main` exits without merging. -/
theorem C9_no_candidates_witness :
    collectFiles fsSample (argsExplicit ["nope.txt"]) = []
    ∧ main fsSample (argsExplicit ["nope.txt"])
        = MainOutcome.systemExit "No PDF files found to merge."
    ∧ exitCode (main fsSample (argsExplicit ["nope.txt"])) = 1 := by
  have h := C9_no_candidates fsSample (argsExplicit ["nope.txt"]) (by decide)
  exact ⟨by decide, h.1, h.2.1⟩

/-- C10: `merge_pdfs` writes at most once, only on the success path after
the loop: whenever it raises, nothing was written to the output path, and
whenever it returns normally the written pages are exactly the loop's final
writer and the returned count, at least 1, is their number. -/
theorem C10_single_write (fs : FS) (inputs : List String) (out : String)
    (pw : Option String) (st : Bool) :
    (∀ e, (merge_pdfs fs inputs out pw st).outcome = Except.error e →
        (merge_pdfs fs inputs out pw st).written = none)
    ∧ (∀ n, (merge_pdfs fs inputs out pw st).outcome = Except.ok n →
        1 ≤ n
        ∧ (merge_pdfs fs inputs out pw st).written
            = some (mergeLoop fs pw st inputs initState).1.writer
        ∧ (mergeLoop fs pw st inputs initState).1.writer.length = n) := by
  obtain ⟨w, ms, ht, hs⟩ := mergeLoop_init_delta fs pw st inputs
  rcases hm : mergeLoop fs pw st inputs initState with ⟨t, ab⟩
  rw [hm] at ht
  simp only at ht
  cases ab with
  | some e =>
    rw [merge_pdfs_abort fs pw st out inputs t e hm]
    constructor
    · intro _ _
      rfl
    · intro n hn
      cases hn
  | none =>
    by_cases h0 : t.pages_added = 0
    · rw [merge_pdfs_noPages fs pw st out inputs t hm h0]
      constructor
      · intro _ _
        rfl
      · intro n hn
        cases hn
    · rw [merge_pdfs_success fs pw st out inputs t hm h0]
      constructor
      · intro e he
        cases he
      · intro n hn
        have hn' : t.pages_added = n := by
          simpa using hn
        refine ⟨?_, rfl, ?_⟩
        · omega
        · rw [ht] at hn' ⊢
          exact hn'

/-- C10 witness: a successful merge returns 2 = the written page count,
and a failing merge (missing only input) writes nothing. -/
theorem C10_single_write_witness :
    (merge_pdfs fsSample ["a.pdf"] "o.pdf" none false).outcome = Except.ok 2
    ∧ 1 ≤ 2
    ∧ (merge_pdfs fsSample ["a.pdf"] "o.pdf" none false).written
        = some (mergeLoop fsSample none false ["a.pdf"] initState).1.writer
    ∧ (merge_pdfs fsSample ["z.pdf"] "o.pdf" none false).outcome
        = Except.error (Exc.runtimeError "No pages added. Check inputs.")
    ∧ (merge_pdfs fsSample ["z.pdf"] "o.pdf" none false).written = none := by
  have h1 := (C10_single_write fsSample ["a.pdf"] "o.pdf" none false).2 2 (by decide)
  have h2 := (C10_single_write fsSample ["z.pdf"] "o.pdf" none false).1
    (Exc.runtimeError "No pages added. Check inputs.") (by decide)
  exact ⟨by decide, h1.1, h1.2.1, by decide, h2⟩

end PdfMerger
